import Mathlib

/-!
Verification of the batch cell-processing core of the excel-ai-assistant
repository: the batch engine (`app/ui/components/batch_processor.py`), the
rate-limited transformation client (`app/services/api_manager.py`,
`app/services/ollama_api_manager.py`) and the tabular data store
(`app/services/data_manager.py`), shallowly embedded as pure functions.
-/

namespace ExcelAI

/-- A cell value held by the tabular store: text, an integer, or the Python
`None` that `load_file` substitutes for missing data. -/
inductive Value where
  | str (s : String)
  | int (n : Int)
  | null
deriving DecidableEq, Repr

/-- The `context_data` dictionary attached by `DataManager.get_range`: one
entry per valid context column with that column's value in the row, plus the
synthetic `headers` dictionary mapping column names to themselves. -/
structure CtxData where
  entries : List (String × Value)
  headers : List (String × String)
deriving DecidableEq, Repr

/-- One pending unit of work, the dictionary built by `get_range` with keys
`row`, `col`, `content` and optional `context_data`. -/
structure CellTask where
  row : Nat
  col : String
  content : Value
  contextData : Option CtxData
deriving DecidableEq, Repr

/-- The outcome dictionary built per cell by `_process_batches_async`
(keys `row`, `col`, `success`, `result`, `error`). -/
structure CellResult where
  row : Nat
  col : String
  success : Bool
  result : Option String
  error : Option String
deriving DecidableEq, Repr

/-! ## Batch engine (`BatchProcessor._process_batches_async`)

The engine is modelled as a pure function from its inputs to the ordered
trace of callback invocations it performs.  External nondeterminism is made
explicit through three oracles:

* `client : Nat → Bool × Option String × Option String` — the value returned
  by the k-th call to `api_manager.process_single_cell` (the client never
  raises; `_process_single_cell_async` additionally converts any exception
  into such a triple);
* `flag : Nat → Bool` — the value of `self.processing_cancelled` at its k-th
  read (the flag is mutated externally by `cancel_processing`);
* `intr : Nat → Bool` — whether an `asyncio.CancelledError` (from
  `current_task.cancel()`) is delivered at the k-th suspension point (the
  awaited cell call, the 0.2 s sleep after each cell, the 0.5 s sleep after
  each batch).  Synchronous code between awaits cannot be interrupted.
-/

/-- A callback invocation performed by the engine: a progress update
`(processed, succeeded, failed, total, status)` or the completion callback
`(results, succeeded, failed)`. -/
inductive Event where
  | progress (processed succeeded failed total : Nat) (status : String)
  | completion (results : List CellResult) (succeeded failed : Nat)
deriving DecidableEq, Repr

/-- Whether an event is an invocation of the completion callback. -/
def Event.isCompletion : Event → Bool
  | .completion _ _ _ => true
  | _ => false

/-- Whether an event is a progress update whose status text is the
`f"Error: {str(e)}"` message of the exception handler. -/
def Event.errStatus : Event → Bool
  | .progress _ _ _ _ st => st.take 7 == "Error: "
  | _ => false

/-- The local state of one `_process_batches_async` run: the counters, the
`all_results` accumulator, and cursors into the three oracles (`checkIdx`
counts reads of `processing_cancelled`, `awaitIdx` counts suspension points,
`callIdx` counts client calls). -/
structure RunSt where
  processed : Nat
  succ : Nat
  err : Nat
  allResults : List CellResult
  checkIdx : Nat
  awaitIdx : Nat
  callIdx : Nat
deriving DecidableEq, Repr

/-- `batches = [cells[i:i + batch_size] for i in range(0, len(cells), batch_size)]`
for a positive step: slice number `k` is `cells[k*bs : k*bs + bs]`, and
`range(0, n, bs)` has `(n + bs - 1) / bs` elements. -/
def pyChunks (cells : List α) (bs : Nat) : List (List α) :=
  (List.range ((cells.length + bs - 1) / bs)).map
    (fun k => (cells.drop (k * bs)).take bs)

/-- The batch partition with Python `range` semantics for the step: a zero
step raises `ValueError("range() arg 3 must not be zero")`, a negative step
makes `range(0, n, step)` empty, a positive step slices. -/
def chunks (cells : List α) (bs : Int) : Except String (List (List α)) :=
  if bs = 0 then .error "range() arg 3 must not be zero"
  else if bs < 0 then .ok []
  else .ok (pyChunks cells bs.toNat)

/-- The `except asyncio.CancelledError` handler: one "Processing cancelled"
progress update, then the completion callback with the current
`all_results` and counters. -/
def cancelEvents (total : Nat) (st : RunSt) : List Event :=
  [.progress st.processed st.succ st.err total "Processing cancelled",
   .completion st.allResults st.succ st.err]

/-- The code after the batch loop: one final progress update whose status is
`"Processing completed"` unless `processing_cancelled` reads true, then the
completion callback. -/
def finalEvents (total : Nat) (flag : Nat → Bool) (st : RunSt) :
    List Event × RunSt :=
  let status := if flag st.checkIdx then "Processing cancelled"
                else "Processing completed"
  ([.progress st.processed st.succ st.err total status,
    .completion st.allResults st.succ st.err],
   { st with checkIdx := st.checkIdx + 1 })

/-- The inner `for cell_idx, cell in enumerate(batch)` loop.  Returns the
events emitted from this point on together with either `.inl st` — a
`CancelledError` ended the whole run (the events already contain the
handler's progress and completion) — or `.inr (st, batchResults)` — the loop
finished or broke on the cancellation flag and control continues after it. -/
def innerLoop (client : Nat → Bool × Option String × Option String)
    (flag intr : Nat → Bool) (total nb blen bi : Nat) :
    List CellTask → Nat → RunSt → List CellResult →
    List Event × (RunSt ⊕ (RunSt × List CellResult))
  | [], _, st, acc => ([], .inr (st, acc))
  | c :: rest, ci, st, acc =>
    if flag st.checkIdx then
      ([], .inr ({ st with checkIdx := st.checkIdx + 1 }, acc))
    else
      let st1 := { st with checkIdx := st.checkIdx + 1 }
      if intr st1.awaitIdx then
        -- CancelledError during `await self._process_single_cell_async(...)`
        let st2 := { st1 with awaitIdx := st1.awaitIdx + 1 }
        (cancelEvents total st2, .inl st2)
      else
        let st2 := { st1 with awaitIdx := st1.awaitIdx + 1 }
        let out := client st2.callIdx
        let st3 := { st2 with callIdx := st2.callIdx + 1 }
        let cr : CellResult := ⟨c.row, c.col, out.1, out.2.1, out.2.2⟩
        let st4 := { st3 with
          processed := st3.processed + 1,
          succ := st3.succ + (if out.1 then 1 else 0),
          err := st3.err + (if out.1 then 0 else 1) }
        let pe := Event.progress st4.processed st4.succ st4.err total
          ("Processing batch " ++ toString (bi + 1) ++ " of " ++ toString nb
            ++ ": " ++ toString (ci + 1) ++ "/" ++ toString blen ++ " cells")
        if intr st4.awaitIdx then
          -- CancelledError during `await asyncio.sleep(0.2)`:
          -- `batch_results` of the current batch are lost.
          let st5 := { st4 with awaitIdx := st4.awaitIdx + 1 }
          (pe :: cancelEvents total st5, .inl st5)
        else
          let st5 := { st4 with awaitIdx := st4.awaitIdx + 1 }
          let r := innerLoop client flag intr total nb blen bi rest (ci + 1)
                     st5 (acc ++ [cr])
          (pe :: r.1, r.2)

/-- The outer `for batch_idx, batch in enumerate(batches)` loop, including
the `all_results.extend(batch_results)`, the per-batch progress updates, the
0.5 s inter-batch sleep, and the final section after the loop. -/
def outerLoop (client : Nat → Bool × Option String × Option String)
    (flag intr : Nat → Bool) (total nb : Nat) :
    List (List CellTask) → Nat → RunSt → List Event × RunSt
  | [], _, st => finalEvents total flag st
  | b :: rest, bi, st =>
    if flag st.checkIdx then
      finalEvents total flag { st with checkIdx := st.checkIdx + 1 }
    else
      let st1 := { st with checkIdx := st.checkIdx + 1 }
      let pe1 := Event.progress st1.processed st1.succ st1.err total
        ("Processing batch " ++ toString (bi + 1) ++ " of " ++ toString nb
          ++ "...")
      match innerLoop client flag intr total nb b.length bi b 0 st1 [] with
      | (evs, .inl stI) => (pe1 :: evs, stI)
      | (evs, .inr (st2, batchResults)) =>
        let st3 := { st2 with allResults := st2.allResults ++ batchResults }
        let pe2 := Event.progress st3.processed st3.succ st3.err total
          ("Completed batch " ++ toString (bi + 1) ++ " of " ++ toString nb)
        if intr st3.awaitIdx then
          -- CancelledError during `await asyncio.sleep(0.5)`
          let st4 := { st3 with awaitIdx := st3.awaitIdx + 1 }
          (pe1 :: (evs ++ [pe2] ++ cancelEvents total st4), st4)
        else
          let st4 := { st3 with awaitIdx := st3.awaitIdx + 1 }
          let r := outerLoop client flag intr total nb rest (bi + 1) st4
          (pe1 :: (evs ++ [pe2] ++ r.1), r.2)

/-- The observable outcome of one run: the ordered trace of callback
invocations, the arguments of the (unique) completion invocation, and the
value of the `processed` counter at that moment. -/
structure RunOut where
  events : List Event
  results : List CellResult
  succeeded : Nat
  failed : Nat
  processedAtEnd : Nat
deriving DecidableEq, Repr

/-- `BatchProcessor._process_batches_async`.  The only statement in the
`try` block that can raise outside the per-cell capture is the batch
partition (`range` with a zero step); that `ValueError` is caught by
`except Exception`, which emits an `"Error: ..."` progress update and still
invokes the completion callback with the (empty) accumulated results. -/
def processBatchesAsync (client : Nat → Bool × Option String × Option String)
    (flag intr : Nat → Bool) (cells : List CellTask) (batchSize : Int) :
    RunOut :=
  let total := cells.length
  match chunks cells batchSize with
  | .error msg =>
    { events := [.progress 0 0 0 total ("Error: " ++ msg),
                 .completion [] 0 0],
      results := [], succeeded := 0, failed := 0, processedAtEnd := 0 }
  | .ok batches =>
    let r := outerLoop client flag intr total batches.length batches 0
               ⟨0, 0, 0, [], 0, 0, 0⟩
    { events := r.1, results := r.2.allResults, succeeded := r.2.succ,
      failed := r.2.err, processedAtEnd := r.2.processed }

/-! ## Tabular store (`DataManager`)

The pandas `DataFrame` is modelled as its column-name list plus one
association list per row; `df.loc[row, col]` is an association lookup. -/

/-- The in-memory table: `df.columns` and the rows, each an association
list from column name to value. -/
structure DataFrame where
  cols : List String
  rows : List (List (String × Value))
deriving DecidableEq, Repr

/-- `df.loc[row, col]` (with `Value.null` for a lookup the source never
performs: `get_range` and `update_cell` only access rows below
`len(self.df)` and columns in `self.df.columns`). -/
def DataFrame.cellD (df : DataFrame) (r : Nat) (c : String) : Value :=
  match (df.rows.getD r []).lookup c with
  | some v => v
  | none => .null

/-- Assignment into one row's association list (`df.loc[row, col] = value`
on an existing column replaces the stored value). -/
def setAssoc : List (String × Value) → String → Value → List (String × Value)
  | [], c, v => [(c, v)]
  | (k, w) :: rest, c, v =>
    if k = c then (c, v) :: rest else (k, w) :: setAssoc rest c v

/-- `df.loc[row, col] = value` on the whole frame. -/
def DataFrame.setCell (df : DataFrame) (r : Nat) (c : String) (v : Value) :
    DataFrame :=
  { df with rows := df.rows.set r (setAssoc (df.rows.getD r []) c v) }

/-- The `DataManager` state the range operations touch: the optional loaded
frame, the `modified` flag, and whether `self.file_path` is set. -/
structure Dm where
  df : Option DataFrame
  modified : Bool
  hasFilePath : Bool
deriving DecidableEq, Repr

/-- `DataManager.update_cell`: reject a missing frame, a negative or
out-of-bounds row, or an unknown column; otherwise assign the cell and set
`modified`. -/
def updateCell (dm : Dm) (row : Int) (col : String) (v : Value) : Dm × Bool :=
  match dm.df with
  | none => (dm, false)
  | some df =>
    if row < 0 ∨ (df.rows.length : Int) ≤ row ∨ ¬ df.cols.contains col then
      (dm, false)
    else
      ({ dm with df := some (df.setCell row.toNat col v), modified := true },
       true)

/-- One entry of the `updates` list passed to `update_range`: `update.get`
returns `None` both for a missing key and for a stored `None`, so each field
is an `Option` (a failed cell's `result` is `None`). -/
structure CellUpdate where
  row : Option Int
  col : Option String
  result : Option Value
deriving DecidableEq, Repr

/-- The `for update in updates` loop of `update_range`: an update missing
`row`, `col` or `result` counts as failed without touching the frame;
otherwise `update_cell` decides. -/
def updateLoop (dm : Dm) : List CellUpdate → Dm × Nat × Nat
  | [] => (dm, 0, 0)
  | u :: rest =>
    match u.row, u.col, u.result with
    | some r, some c, some v =>
      let p := updateCell dm r c v
      let q := updateLoop p.1 rest
      (q.1, (if p.2 then 1 else 0) + q.2.1, (if p.2 then 0 else 1) + q.2.2)
    | _, _, _ =>
      let q := updateLoop dm rest
      (q.1, q.2.1, 1 + q.2.2)

/-- `DataManager.update_range`: with no frame loaded return
`(0, len(updates))` untouched; otherwise run the loop, set `modified` when
anything applied, and attempt the auto-save (whose outcome `saveOk` stands
for the external file write: success resets `modified`, failure is only
logged). -/
def updateRange (dm : Dm) (updates : List CellUpdate)
    (autoSave saveOk : Bool) : Dm × Nat × Nat :=
  match dm.df with
  | none => (dm, 0, updates.length)
  | some _ =>
    let q := updateLoop dm updates
    let dm1 := if 0 < q.2.1 then { q.1 with modified := true } else q.1
    let dm2 :=
      if 0 < q.2.1 ∧ autoSave ∧ dm1.hasFilePath ∧ saveOk then
        { dm1 with modified := false }
      else dm1
    (dm2, q.2.1, q.2.2)

/-- `range(start_row, end_row)` after the clamps of `get_range` (`s ≥ 0`;
an empty range when `e ≤ s`). -/
def rowRange (s e : Int) : List Nat :=
  (List.range (e - s).toNat).map (fun i => s.toNat + i)

/-- `DataManager.get_range`: clamp the row bounds, drop requested columns
not in the table (empty result if none is left), drop context columns not in
the table or overlapping the processed columns, and build one task per
`(row, valid column)` pair in row-major order, attaching `context_data`
exactly when the valid context column list is non-empty. -/
def getRange (dm : Option DataFrame) (startRow endRow : Int)
    (columns : List String) (contextColumns : Option (List String)) :
    List CellTask :=
  match dm with
  | none => []
  | some df =>
    let startRow := if startRow < 0 then 0 else startRow
    let endRow := if endRow > (df.rows.length : Int) then
        (df.rows.length : Int) else endRow
    let validColumns := columns.filter (fun c => df.cols.contains c)
    if validColumns.isEmpty then []
    else
      let validContextColumns :=
        match contextColumns with
        | some ctxCols =>
          ctxCols.filter
            (fun c => df.cols.contains c && !validColumns.contains c)
        | none => []
      (rowRange startRow endRow).flatMap (fun r =>
        validColumns.map (fun c =>
          { row := r, col := c, content := df.cellD r c,
            contextData :=
              if validContextColumns.isEmpty then none
              else some
                { entries := validContextColumns.map
                    (fun cc => (cc, df.cellD r cc)),
                  headers := (validColumns ++ validContextColumns).map
                    (fun c2 => (c2, c2)) } }))

/-! ## Transformation client (`APIManager` / `OllamaAPIManager`)

Wall-clock instants are exact rationals; each `process_single_cell` call
reads the clock twice (`_check_rate_limit` and, on success,
`_increment_request_count`), so both instants are explicit arguments.  The
HTTP layer is an oracle mapping the composed outbound prompt to the
backend's behaviour. -/

/-- The rate-limiter instance fields `request_count` /
`request_start_time`. -/
structure RateSt where
  requestCount : Nat
  windowStart : ℚ
deriving DecidableEq, Repr

/-- `_check_rate_limit` at clock instant `now`: after more than 60 seconds
reset the window and permit; otherwise permit iff the count is below the
ceiling (state untouched). -/
def checkRateLimit (maxPerMinute : Nat) (st : RateSt) (now : ℚ) :
    Bool × RateSt :=
  if 60 < now - st.windowStart then (true, ⟨0, now⟩)
  else (decide (st.requestCount < maxPerMinute), st)

/-- `_increment_request_count` at clock instant `now`. -/
def incrementRequestCount (st : RateSt) (now : ℚ) : RateSt :=
  if 60 < now - st.windowStart then ⟨1, now⟩
  else ⟨st.requestCount + 1, st.windowStart⟩

/-- The context block appended to the prompt: `"\n\nContext information:\n"`
followed by one `"- {key}: {value}\n"` bullet per entry, accumulated
left-to-right exactly as the Python `+=` loop does. -/
def contextBlock (ctx : List (String × String)) : String :=
  ctx.foldl (fun acc kv => acc ++ "- " ++ kv.1 ++ ": " ++ kv.2 ++ "\n")
    "\n\nContext information:\n"

/-- The composed outbound prompt of both backends:
`f"{user_prompt}\n\nCell content: {cell_content}"`, plus the context block
when `context_data` is a non-empty dictionary. -/
def composePrompt (userPrompt cellContent : String)
    (ctx : Option (List (String × String))) : String :=
  let base := userPrompt ++ "\n\nCell content: " ++ cellContent
  match ctx with
  | some l => if l.isEmpty then base else base ++ contextBlock l
  | none => base

/-- Behaviour of one `client.chat.completions.create` call: a successful
response whose first choice carries `text`, or one of the exception classes
the source distinguishes (`RateLimitError`, `APIError`, anything else). -/
inductive BackendOutcome where
  | ok (text : String)
  | rateLimitErr (msg : String)
  | apiErr (msg : String)
  | exn (msg : String)
deriving DecidableEq, Repr

/-- `APIManager._process_openai`.  `clientReady` is whether `self.client`
exists or `initialize()` can create it; `tCheck`/`tInc` are the two clock
reads; `backend` maps the two chat turns (system prompt, composed prompt) to the
call's behaviour.  Returns the `(success, result, error)` triple, the rate
state afterwards, and whether the backend was actually called. -/
def processOpenai (maxPerMinute : Nat) (clientReady : Bool) (st : RateSt)
    (tCheck tInc : ℚ) (backend : String → String → BackendOutcome)
    (cellContent systemPrompt userPrompt : String)
    (ctx : Option (List (String × String))) :
    (Bool × Option String × Option String) × RateSt × Bool :=
  if ¬ clientReady then
    ((false, none, some "API client not initialized"), st, false)
  else
    let chk := checkRateLimit maxPerMinute st tCheck
    if ¬ chk.1 then
      ((false, none, some "Rate limit exceeded. Please try again later."),
       chk.2, false)
    else
      let fp := composePrompt userPrompt cellContent ctx
      match backend systemPrompt fp with
      | .ok text =>
        ((true, some text.trim, none), incrementRequestCount chk.2 tInc, true)
      | .rateLimitErr m =>
        ((false, none, some ("Rate limit exceeded: " ++ m)), chk.2, true)
      | .apiErr m =>
        ((false, none, some ("API Error: " ++ m)), chk.2, true)
      | .exn m =>
        ((false, none, some ("Error: " ++ m)), chk.2, true)

/-- Behaviour of one Ollama `/api/generate` streaming request for a given
composed prompt: the accumulated `"response"` fragments of a successful
stream, or an exception (a non-200 status raised as
`"API Error: {status} - {text}"`, a transport error, etc.), as a function of
the system prompt and the composed prompt sent in the request. -/
inductive StreamOutcome where
  | ok (pieces : List String)
  | exn (msg : String)
deriving DecidableEq, Repr

/-- `OllamaAPIManager.process_single_cell`: rate-limit check, the same
prompt composition, then the streaming generation whose fragments are
concatenated and trimmed; any exception is returned as
`(False, None, f"Error: {e}")`. -/
def processOllamaCell (maxPerMinute : Nat) (st : RateSt) (tCheck tInc : ℚ)
    (stream : String → String → StreamOutcome)
    (cellContent systemPrompt userPrompt : String)
    (ctx : Option (List (String × String))) :
    (Bool × Option String × Option String) × RateSt × Bool :=
  let chk := checkRateLimit maxPerMinute st tCheck
  if ¬ chk.1 then
    ((false, none, some "Rate limit exceeded. Please try again later."),
     chk.2, false)
  else
    let fp := composePrompt userPrompt cellContent ctx
    match stream systemPrompt fp with
    | .ok pieces =>
      ((true, some (String.join pieces).trim, none),
       incrementRequestCount chk.2 tInc, true)
    | .exn m =>
      ((false, none, some ("Error: " ++ m)), chk.2, true)

/-- A sequence of `_process_openai` calls at the given pairs of clock
instants, against a fixed backend and fixed prompts, threading the rate
state. -/
def runCalls (maxPerMinute : Nat) (backend : String → String → BackendOutcome)
    (cellContent systemPrompt userPrompt : String)
    (ctx : Option (List (String × String))) (st : RateSt) :
    List (ℚ × ℚ) → List (Bool × Option String × Option String) × RateSt
  | [] => ([], st)
  | t :: rest =>
    let p := processOpenai maxPerMinute true st t.1 t.2 backend cellContent
      systemPrompt userPrompt ctx
    let q := runCalls maxPerMinute backend cellContent systemPrompt
      userPrompt ctx p.2.1 rest
    (p.1 :: q.1, q.2)

/-! ## Helper lemmas: the batch engine trace -/

theorem countP_cancelEvents (total : Nat) (st : RunSt) :
    (cancelEvents total st).countP Event.isCompletion = 1 := by
  simp [cancelEvents, Event.isCompletion]

theorem countP_finalEvents (total : Nat) (flag : Nat → Bool) (st : RunSt) :
    (finalEvents total flag st).1.countP Event.isCompletion = 1 := by
  simp [finalEvents, Event.isCompletion]

/-- `1` when the inner loop ended the run via the `CancelledError` handler,
`0` when control continues. -/
def innerExitCount : (RunSt ⊕ (RunSt × List CellResult)) → Nat
  | .inl _ => 1
  | .inr _ => 0

theorem innerLoop_countP (client : Nat → Bool × Option String × Option String)
    (flag intr : Nat → Bool) (total nb blen bi : Nat) :
    ∀ (cells : List CellTask) (ci : Nat) (st : RunSt) (acc : List CellResult),
    (innerLoop client flag intr total nb blen bi cells ci st acc).1.countP
        Event.isCompletion =
      innerExitCount
        (innerLoop client flag intr total nb blen bi cells ci st acc).2 := by
  intro cells
  induction cells with
  | nil => intro ci st acc; simp [innerLoop, innerExitCount]
  | cons c rest ih =>
    intro ci st acc
    rw [innerLoop]
    dsimp only
    split
    · simp [innerExitCount]
    · split
      · simp [countP_cancelEvents, innerExitCount]
      · split
        · simp [countP_cancelEvents, innerExitCount, List.countP_cons,
            Event.isCompletion]
        · simp [List.countP_cons, Event.isCompletion, ih]

theorem outerLoop_countP
    (client : Nat → Bool × Option String × Option String)
    (flag intr : Nat → Bool) (total nb : Nat) :
    ∀ (batches : List (List CellTask)) (bi : Nat) (st : RunSt),
    (outerLoop client flag intr total nb batches bi st).1.countP
      Event.isCompletion = 1 := by
  intro batches
  induction batches with
  | nil => intro bi st; simpa using countP_finalEvents total flag st
  | cons b rest ih =>
    intro bi st
    rw [outerLoop]
    by_cases hf : flag st.checkIdx
    · simpa [hf] using countP_finalEvents total flag _
    · simp only [hf, if_false, Bool.false_eq_true]
      rcases hinner : innerLoop client flag intr total nb b.length bi b 0
        { st with checkIdx := st.checkIdx + 1 } [] with ⟨evs, out⟩
      have hcount := innerLoop_countP client flag intr total nb b.length bi
        b 0 { st with checkIdx := st.checkIdx + 1 } []
      rw [hinner] at hcount
      match out with
      | .inl stI =>
        simp only [innerExitCount] at hcount
        simp [List.countP_cons, Event.isCompletion, hcount]
      | .inr (st2, batchResults) =>
        simp only [innerExitCount] at hcount
        by_cases hi : intr (st2.awaitIdx) = true
        · simp [hi, List.countP_cons, List.countP_append, Event.isCompletion,
            hcount, countP_cancelEvents]
        · simp [hi, List.countP_cons, List.countP_append, Event.isCompletion,
            hcount, ih]

/-- The cell results an uncancelled run builds for `tasks` when the client
calls start at call index `k`. -/
def cellsResults (client : Nat → Bool × Option String × Option String) :
    Nat → List CellTask → List CellResult
  | _, [] => []
  | k, c :: rest =>
    ⟨c.row, c.col, (client k).1, (client k).2.1, (client k).2.2⟩ ::
      cellsResults client (k + 1) rest

theorem cellsResults_append
    (client : Nat → Bool × Option String × Option String) :
    ∀ (a b : List CellTask) (k : Nat),
    cellsResults client k (a ++ b) =
      cellsResults client k a ++ cellsResults client (k + a.length) b := by
  intro a
  induction a with
  | nil => simp [cellsResults]
  | cons c rest ih =>
    intro b k
    show cellsResults client k (c :: (rest ++ b)) = _
    rw [cellsResults, ih, List.length_cons]
    have h : k + 1 + rest.length = k + (rest.length + 1) := by omega
    rw [h]
    simp [cellsResults]

theorem cellsResults_rowcol
    (client : Nat → Bool × Option String × Option String) :
    ∀ (tasks : List CellTask) (k : Nat),
    (cellsResults client k tasks).map (fun r => (r.row, r.col)) =
      tasks.map (fun t => (t.row, t.col)) := by
  intro tasks
  induction tasks with
  | nil => simp [cellsResults]
  | cons c rest ih => intro k; simp [cellsResults, ih]

theorem cellsResults_length
    (client : Nat → Bool × Option String × Option String) :
    ∀ (tasks : List CellTask) (k : Nat),
    (cellsResults client k tasks).length = tasks.length := by
  intro tasks
  induction tasks with
  | nil => simp [cellsResults]
  | cons c rest ih => intro k; simp [cellsResults, ih]

/-- With the cancellation flag never set and no `CancelledError` delivered,
the inner loop processes every cell of the batch: it appends exactly the
client's outcomes to `batch_results`, consumes one client call per cell, and
leaves `all_results` untouched. -/
theorem innerLoop_no_cancel
    (client : Nat → Bool × Option String × Option String)
    (flag intr : Nat → Bool) (total nb blen bi : Nat)
    (hf : ∀ i, flag i = false) (hi : ∀ i, intr i = false) :
    ∀ (cells : List CellTask) (ci : Nat) (st : RunSt) (acc : List CellResult),
    ∃ st',
    (innerLoop client flag intr total nb blen bi cells ci st acc).2 =
      .inr (st', acc ++ cellsResults client st.callIdx cells) ∧
    st'.allResults = st.allResults ∧
    st'.callIdx = st.callIdx + cells.length := by
  intro cells
  induction cells with
  | nil => intro ci st acc; exact ⟨st, by simp [innerLoop, cellsResults]⟩
  | cons c rest ih =>
    intro ci st acc
    obtain ⟨st', heq, hall, hcall⟩ := ih (ci + 1)
      ⟨st.processed + 1,
       st.succ + (if (client st.callIdx).1 then 1 else 0),
       st.err + (if (client st.callIdx).1 then 0 else 1),
       st.allResults, st.checkIdx + 1, st.awaitIdx + 1 + 1, st.callIdx + 1⟩
      (acc ++ [⟨c.row, c.col, (client st.callIdx).1, (client st.callIdx).2.1,
        (client st.callIdx).2.2⟩])
    simp only at hall hcall
    refine ⟨st', ?_, hall, by rw [hcall, List.length_cons]; omega⟩
    rw [innerLoop]
    dsimp only
    rw [hf st.checkIdx, hi st.awaitIdx, hi (st.awaitIdx + 1)]
    simp only [Bool.false_eq_true, if_false]
    rw [heq]
    simp [cellsResults, List.append_assoc]

/-- With the cancellation flag never set and no `CancelledError` delivered,
the outer loop extends `all_results` with exactly the client's outcomes for
the concatenation of the remaining batches. -/
theorem outerLoop_no_cancel
    (client : Nat → Bool × Option String × Option String)
    (flag intr : Nat → Bool) (total nb : Nat)
    (hf : ∀ i, flag i = false) (hi : ∀ i, intr i = false) :
    ∀ (batches : List (List CellTask)) (bi : Nat) (st : RunSt),
    (outerLoop client flag intr total nb batches bi st).2.allResults =
      st.allResults ++ cellsResults client st.callIdx batches.flatten := by
  intro batches
  induction batches with
  | nil => intro bi st; simp [outerLoop, finalEvents, cellsResults]
  | cons b rest ih =>
    intro bi st
    obtain ⟨st', heq, hall, hcall⟩ := innerLoop_no_cancel client flag intr
      total nb b.length bi hf hi b 0
      ⟨st.processed, st.succ, st.err, st.allResults, st.checkIdx + 1,
       st.awaitIdx, st.callIdx⟩ []
    simp only at hall hcall
    rw [outerLoop]
    dsimp only
    rw [hf st.checkIdx]
    simp only [Bool.false_eq_true, if_false]
    rcases hres : innerLoop client flag intr total nb b.length bi b 0
      ⟨st.processed, st.succ, st.err, st.allResults, st.checkIdx + 1,
       st.awaitIdx, st.callIdx⟩ [] with ⟨evs0, out⟩
    rw [hres] at heq
    simp only at heq
    subst heq
    dsimp only
    rw [hi st'.awaitIdx]
    simp only [Bool.false_eq_true, if_false]
    rw [ih]
    dsimp only
    rw [hall, hcall, List.flatten_cons, cellsResults_append]
    simp [List.append_assoc]

/-- Every list is recovered by flattening its Python batch slices
(positive batch size). -/
theorem pyChunks_flatten (bs : Nat) (hbs : 0 < bs) :
    ∀ (l : List α), (pyChunks l bs).flatten = l := by
  suffices H : ∀ (n : Nat) (l : List α), l.length ≤ n →
      (pyChunks l bs).flatten = l by
    exact fun l => H l.length l le_rfl
  intro n
  induction n with
  | zero =>
    intro l hl
    have hnil : l = [] := List.length_eq_zero.mp (Nat.le_zero.mp hl)
    subst hnil
    have h0 : (0 + bs - 1) / bs = 0 := Nat.div_eq_of_lt (by omega)
    simp [pyChunks, h0]
  | succ n ihn =>
    intro l hl
    rcases l with _ | ⟨x, xs⟩
    · have h0 : (0 + bs - 1) / bs = 0 := Nat.div_eq_of_lt (by omega)
      simp [pyChunks, h0]
    · have hm : ((x :: xs).length + bs - 1) / bs = xs.length / bs + 1 := by
        simp only [List.length_cons]
        have h1 : xs.length + 1 + bs - 1 = xs.length + bs := by omega
        rw [h1, Nat.add_div_right _ hbs]
      rw [pyChunks, hm, List.range_succ_eq_map]
      simp only [List.map_cons, List.map_map, Nat.zero_mul, List.drop_zero,
        List.flatten_cons]
      have htail : (List.range (xs.length / bs)).map
          ((fun k => ((x :: xs).drop (k * bs)).take bs) ∘ Nat.succ) =
          pyChunks ((x :: xs).drop bs) bs := by
        have hcnt : (((x :: xs).drop bs).length + bs - 1) / bs =
            xs.length / bs := by
          rcases Nat.lt_or_ge xs.length bs with hc | hc
          · have h1 : (x :: xs).drop bs = [] := by
              apply List.drop_eq_nil_of_le
              simp only [List.length_cons]
              omega
            rw [h1]
            simp only [List.length_nil]
            rw [Nat.div_eq_of_lt (by omega), Nat.div_eq_of_lt hc]
          · have h1 : ((x :: xs).drop bs).length = xs.length + 1 - bs := by
              simp
            rw [h1]
            have h2 : xs.length + 1 - bs + bs - 1 = xs.length - bs + bs := by
              omega
            rw [h2, Nat.add_div_right _ hbs]
            have h3 : xs.length = xs.length - bs + bs := by omega
            conv_rhs => rw [h3, Nat.add_div_right _ hbs]
        rw [pyChunks, hcnt]
        apply List.map_congr_left
        intro k _
        simp only [Function.comp_apply]
        have h4 : Nat.succ k * bs = bs + k * bs := by
          rw [Nat.succ_mul]; omega
        rw [h4, ← List.drop_drop]
      rw [htail, ihn ((x :: xs).drop bs)
        (by simp only [List.length_drop, List.length_cons] at hl ⊢; omega)]
      exact List.take_append_drop bs (x :: xs)

/-- With no `CancelledError` delivered (arbitrary flag behaviour), the
inner loop always hands control back: `all_results` is untouched, the
counters grow together (`succ + err` in step with `processed`), and
`batch_results` grows by exactly one entry per processed cell. -/
theorem innerLoop_no_intr
    (client : Nat → Bool × Option String × Option String)
    (flag intr : Nat → Bool) (total nb blen bi : Nat)
    (hi : ∀ i, intr i = false) :
    ∀ (cells : List CellTask) (ci : Nat) (st : RunSt) (acc : List CellResult),
    ∃ st' bres,
    (innerLoop client flag intr total nb blen bi cells ci st acc).2 =
      .inr (st', bres) ∧
    st'.allResults = st.allResults ∧
    st'.succ + st'.err + st.processed = st.succ + st.err + st'.processed ∧
    st'.processed + acc.length = st.processed + bres.length ∧
    st.processed ≤ st'.processed ∧
    st'.processed ≤ st.processed + cells.length := by
  intro cells
  induction cells with
  | nil =>
    intro ci st acc
    exact ⟨st, acc, by simp [innerLoop], rfl, by omega, by omega, le_rfl,
      by omega⟩
  | cons c rest ih =>
    intro ci st acc
    rw [innerLoop]
    dsimp only
    by_cases hfc : flag st.checkIdx = true
    · rw [if_pos hfc]
      refine ⟨_, acc, rfl, rfl, ?_, ?_, ?_, ?_⟩ <;> dsimp only <;> omega
    · rw [if_neg hfc, hi st.awaitIdx, hi (st.awaitIdx + 1)]
      simp only [Bool.false_eq_true, if_false]
      obtain ⟨st', bres, heq, hall, hsum, hlen, hmono, hbound⟩ := ih (ci + 1)
        ⟨st.processed + 1,
         st.succ + (if (client st.callIdx).1 then 1 else 0),
         st.err + (if (client st.callIdx).1 then 0 else 1),
         st.allResults, st.checkIdx + 1, st.awaitIdx + 1 + 1, st.callIdx + 1⟩
        (acc ++ [⟨c.row, c.col, (client st.callIdx).1,
          (client st.callIdx).2.1, (client st.callIdx).2.2⟩])
      simp only [List.length_append, List.length_cons, List.length_nil]
        at hall hsum hlen hmono hbound ⊢
      refine ⟨st', bres, heq, hall, ?_, ?_, ?_, ?_⟩
      · rcases h : (client st.callIdx).1 <;> rw [h] at hsum <;> simp at hsum
          <;> omega
      · omega
      · omega
      · omega

/-- With no `CancelledError` delivered, the outer loop preserves the run
invariants `succ + err = processed` and `processed = len(all_results)`, and
`processed` grows by at most the number of remaining cells. -/
theorem outerLoop_no_intr
    (client : Nat → Bool × Option String × Option String)
    (flag intr : Nat → Bool) (total nb : Nat)
    (hi : ∀ i, intr i = false) :
    ∀ (batches : List (List CellTask)) (bi : Nat) (st : RunSt),
    st.succ + st.err = st.processed → st.processed = st.allResults.length →
    (outerLoop client flag intr total nb batches bi st).2.succ +
        (outerLoop client flag intr total nb batches bi st).2.err =
      (outerLoop client flag intr total nb batches bi st).2.processed ∧
    (outerLoop client flag intr total nb batches bi st).2.processed =
      (outerLoop client flag intr total nb batches bi st).2.allResults.length ∧
    (outerLoop client flag intr total nb batches bi st).2.processed ≤
      st.processed + batches.flatten.length := by
  intro batches
  induction batches with
  | nil =>
    intro bi st hsum hlen
    simp [outerLoop, finalEvents, hsum, hlen]
  | cons b rest ih =>
    intro bi st hsum hlen
    rw [outerLoop]
    dsimp only
    by_cases hfc : flag st.checkIdx = true
    · rw [if_pos hfc]
      simp only [finalEvents]
      refine ⟨hsum, hlen, by simp⟩
    · rw [if_neg hfc]
      obtain ⟨st', bres, heq, hall, hsum', hlen', hmono, hbound⟩ :=
        innerLoop_no_intr client flag intr total nb b.length bi hi b 0
          ⟨st.processed, st.succ, st.err, st.allResults, st.checkIdx + 1,
           st.awaitIdx, st.callIdx⟩ []
      simp only [List.length_nil] at hall hsum' hlen' hmono hbound
      rcases hres : innerLoop client flag intr total nb b.length bi b 0
        ⟨st.processed, st.succ, st.err, st.allResults, st.checkIdx + 1,
         st.awaitIdx, st.callIdx⟩ [] with ⟨evs0, out⟩
      rw [hres] at heq
      simp only at heq
      subst heq
      dsimp only
      by_cases hic : intr st'.awaitIdx = true
      · rw [if_pos hic]
        dsimp only
        refine ⟨by omega, ?_, ?_⟩
        · simp only [List.length_append]
          rw [hall]
          omega
        · simp only [List.flatten_cons, List.length_append]
          omega
      · rw [if_neg hic]
        have hinv1 : st'.succ + st'.err = st'.processed := by omega
        obtain ⟨ih1, ih2, ih3⟩ := ih (bi + 1)
          ⟨st'.processed, st'.succ, st'.err, st'.allResults ++ bres,
           st'.checkIdx, st'.awaitIdx + 1, st'.callIdx⟩
          hinv1
          (by simp only [List.length_append]; rw [hall]; omega)
        refine ⟨ih1, ih2, ?_⟩
        refine le_trans ih3 ?_
        simp only [List.flatten_cons, List.length_append]
        omega

/-- If `chunks` succeeds, the flattened batches hold at most the input
cells (exactly the input for a positive batch size, none for a negative
one). -/
theorem chunks_flatten_le (cells : List CellTask) (bs : Int)
    (batches : List (List CellTask)) (h : chunks cells bs = .ok batches) :
    batches.flatten.length ≤ cells.length := by
  unfold chunks at h
  by_cases h0 : bs = 0
  · rw [if_pos h0] at h; cases h
  · rw [if_neg h0] at h
    by_cases hneg : bs < 0
    · rw [if_pos hneg] at h
      cases h
      simp
    · rw [if_neg hneg] at h
      cases h
      rw [pyChunks_flatten bs.toNat (by omega) cells]

/-- If `chunks` succeeds on a positive batch size, the flattened batches
are exactly the input cells. -/
theorem chunks_pos (cells : List CellTask) (bs : Int) (hbs : 0 < bs) :
    chunks cells bs = .ok (pyChunks cells bs.toNat) := by
  unfold chunks
  rw [if_neg (by omega), if_neg (by omega)]

/-! ## Concrete runs used by counterexamples and witnesses -/

/-- A client that always succeeds with `"Z"`. -/
def clientOK : Nat → Bool × Option String × Option String :=
  fun _ => (true, some "Z", none)

/-- A cancellation flag that always reads false. -/
def neverFlag : Nat → Bool := fun _ => false

/-- A `CancelledError` delivered at the second suspension point (the
0.2 s sleep after the first cell). -/
def intrAt1 : Nat → Bool := fun i => i == 1

/-- A one-task input list. -/
def oneCell : List CellTask := [⟨0, "A", .str "x", none⟩]

/-- A two-task input list. -/
def twoCells : List CellTask :=
  [⟨0, "A", .str "x", none⟩, ⟨1, "A", .str "y", none⟩]

/-! ## Claim theorems: batch engine -/

/-- C1: for every task list, batch size, client behaviour, cancellation
schedule and interrupt schedule, `_process_batches_async` invokes the
completion callback exactly once; the model is a total function, mirroring
that no exception propagates to the engine's caller (every path funnels into
one of the three completion-invoking exits). -/
theorem c1_completion_exactly_once
    (client : Nat → Bool × Option String × Option String)
    (flag intr : Nat → Bool) (cells : List CellTask) (batchSize : Int) :
    ((processBatchesAsync client flag intr cells batchSize).events.countP
      Event.isCompletion) = 1 := by
  unfold processBatchesAsync
  rcases h : chunks cells batchSize with msg | batches
  · simp [Event.isCompletion]
  · dsimp only
    exact outerLoop_countP client flag intr cells.length batches.length
      batches 0 ⟨0, 0, 0, [], 0, 0, 0⟩

/-- C2 counterexample: with a negative batch size the partition is empty,
so the run completes without cancellation (final status
`"Processing completed"`) yet delivers an empty result list for a non-empty
task list — the claim's "every batch size" fails. -/
theorem c2_counterexample :
    (processBatchesAsync clientOK neverFlag neverFlag oneCell (-1)).events =
      [.progress 0 0 0 1 "Processing completed", .completion [] 0 0] ∧
    ¬ ((processBatchesAsync clientOK neverFlag neverFlag oneCell
          (-1)).results.map (fun r => (r.row, r.col)) =
        oneCell.map (fun t => (t.row, t.col))) := by
  constructor
  · rfl
  · decide

/-- C2 (amended): for every task list and every positive batch size, a run
in which the cancellation flag never reads true and no `CancelledError` is
delivered hands the completion callback one result per task, in input
order, with the same `(row, col)` pair at every position. -/
theorem c2_order_preserved
    (client : Nat → Bool × Option String × Option String)
    (flag intr : Nat → Bool) (cells : List CellTask) (batchSize : Int)
    (hbs : 0 < batchSize) (hf : ∀ i, flag i = false)
    (hi : ∀ i, intr i = false) :
    (processBatchesAsync client flag intr cells batchSize).results.map
        (fun r => (r.row, r.col)) =
      cells.map (fun t => (t.row, t.col)) := by
  unfold processBatchesAsync
  rw [chunks_pos cells batchSize hbs]
  dsimp only
  rw [outerLoop_no_cancel client flag intr cells.length
    (pyChunks cells batchSize.toNat).length hf hi
    (pyChunks cells batchSize.toNat) 0 ⟨0, 0, 0, [], 0, 0, 0⟩]
  dsimp only
  rw [pyChunks_flatten batchSize.toNat (by omega) cells]
  simp [cellsResults_rowcol]

/-- C2 witness: the amended ordering theorem applied to a concrete
one-task run with batch size 1. -/
theorem c2_order_preserved_witness :
    (0 : Int) < 1 ∧ (∀ i, neverFlag i = false) ∧
    (processBatchesAsync clientOK neverFlag neverFlag oneCell 1).results.map
        (fun r => (r.row, r.col)) =
      oneCell.map (fun t => (t.row, t.col)) :=
  ⟨by norm_num, fun _ => rfl,
    c2_order_preserved clientOK neverFlag neverFlag oneCell 1 (by norm_num)
      (fun _ => rfl) (fun _ => rfl)⟩

/-- C3 counterexample: a `CancelledError` delivered at the pacing sleep
after the first cell of a two-cell batch ends the run with
`processed = succeeded + failed = 1` but an empty delivered result list —
the current batch's `batch_results` were discarded, so for this cancelled
run `processed ≠ len(results)`. -/
theorem c3_counterexample :
    (processBatchesAsync clientOK neverFlag intrAt1 twoCells 2).events =
      [.progress 0 0 0 2 "Processing batch 1 of 1...",
       .progress 1 1 0 2 "Processing batch 1 of 1: 1/2 cells",
       .progress 1 1 0 2 "Processing cancelled",
       .completion [] 1 0] ∧
    (processBatchesAsync clientOK neverFlag intrAt1 twoCells
      2).processedAtEnd = 1 ∧
    (processBatchesAsync clientOK neverFlag intrAt1 twoCells
      2).results.length = 0 ∧
    ¬ ((processBatchesAsync clientOK neverFlag intrAt1 twoCells
          2).processedAtEnd =
        (processBatchesAsync clientOK neverFlag intrAt1 twoCells
          2).results.length) := by
  refine ⟨rfl, rfl, rfl, by decide⟩

/-- C3 (amended): for every run in which no `CancelledError` is delivered
(any flag behaviour, any batch size, any client), the completion counts
satisfy `succeeded + failed = processed = len(results)` and the delivered
results never exceed the input tasks; a `CancelledError` arriving mid-batch
may discard the current batch's results (counts retained), as the
counterexample shows. -/
theorem c3_count_conservation
    (client : Nat → Bool × Option String × Option String)
    (flag intr : Nat → Bool) (cells : List CellTask) (batchSize : Int)
    (hi : ∀ i, intr i = false) :
    (processBatchesAsync client flag intr cells batchSize).succeeded +
        (processBatchesAsync client flag intr cells batchSize).failed =
      (processBatchesAsync client flag intr cells batchSize).processedAtEnd ∧
    (processBatchesAsync client flag intr cells batchSize).processedAtEnd =
      (processBatchesAsync client flag intr cells batchSize).results.length ∧
    (processBatchesAsync client flag intr cells batchSize).results.length ≤
      cells.length := by
  unfold processBatchesAsync
  rcases h : chunks cells batchSize with msg | batches
  · dsimp only
    exact ⟨rfl, rfl, by simp⟩
  · dsimp only
    obtain ⟨h1, h2, h3⟩ := outerLoop_no_intr client flag intr cells.length
      batches.length hi batches 0 ⟨0, 0, 0, [], 0, 0, 0⟩ rfl rfl
    refine ⟨h1, h2, ?_⟩
    rw [← h2]
    have h4 := chunks_flatten_le cells batchSize batches h
    dsimp only at h3
    omega

/-- C3 witness: the amended count-conservation theorem applied to a
concrete two-cell run with batch size 2 and no interruption. -/
theorem c3_count_conservation_witness :
    (∀ i, neverFlag i = false) ∧
    (processBatchesAsync clientOK neverFlag neverFlag twoCells 2).succeeded +
        (processBatchesAsync clientOK neverFlag neverFlag twoCells 2).failed =
      (processBatchesAsync clientOK neverFlag neverFlag twoCells
        2).processedAtEnd ∧
    (processBatchesAsync clientOK neverFlag neverFlag twoCells
      2).processedAtEnd =
      (processBatchesAsync clientOK neverFlag neverFlag twoCells
        2).results.length ∧
    (processBatchesAsync clientOK neverFlag neverFlag twoCells
      2).results.length ≤ twoCells.length :=
  ⟨fun _ => rfl, c3_count_conservation clientOK neverFlag neverFlag twoCells 2
    (fun _ => rfl)⟩

/-- C10 counterexample: invoking the engine with batch size `-1` raises no
partitioning error at all — `range(0, n, -1)` is simply empty — so no
progress update carrying an error text is ever emitted (the final status is
`"Processing completed"`), refuting the claim for negative batch sizes. -/
theorem c10_counterexample :
    (processBatchesAsync clientOK neverFlag neverFlag oneCell (-1)).events =
      [.progress 0 0 0 1 "Processing completed", .completion [] 0 0] ∧
    (processBatchesAsync clientOK neverFlag neverFlag oneCell
      (-1)).events.countP Event.errStatus = 0 := by
  constructor
  · rfl
  · decide

/-- C10 (amended): a non-positive batch size never lets an exception reach
the caller and still invokes the completion callback exactly once with an
empty result list and counts `(0, 0)`; the `"Error: ..."` progress update is
emitted only for batch size zero (the `range` `ValueError`), while a
negative batch size yields an empty partition and a normal
`"Processing completed"` run. -/
theorem c10_nonpositive_batch
    (client : Nat → Bool × Option String × Option String)
    (flag intr : Nat → Bool) (cells : List CellTask) (batchSize : Int)
    (hbs : batchSize ≤ 0) :
    (processBatchesAsync client flag intr cells batchSize).results = [] ∧
    (processBatchesAsync client flag intr cells batchSize).succeeded = 0 ∧
    (processBatchesAsync client flag intr cells batchSize).failed = 0 ∧
    (processBatchesAsync client flag intr cells batchSize).events.countP
      Event.isCompletion = 1 ∧
    (batchSize = 0 →
      (processBatchesAsync client flag intr cells batchSize).events =
        [.progress 0 0 0 cells.length
          "Error: range() arg 3 must not be zero", .completion [] 0 0]) ∧
    (batchSize < 0 → (∀ i, flag i = false) →
      (processBatchesAsync client flag intr cells batchSize).events =
        [.progress 0 0 0 cells.length "Processing completed",
         .completion [] 0 0]) := by
  by_cases h0 : batchSize = 0
  · subst h0
    unfold processBatchesAsync chunks
    rw [if_pos rfl]
    dsimp only
    refine ⟨rfl, rfl, rfl, by simp [Event.isCompletion], fun _ => rfl,
      fun hlt _ => absurd hlt (by omega)⟩
  · have hlt : batchSize < 0 := by omega
    have hch : chunks cells batchSize = .ok ([] : List (List CellTask)) := by
      unfold chunks
      rw [if_neg h0, if_pos hlt]
    unfold processBatchesAsync
    rw [hch]
    dsimp only
    rw [outerLoop]
    refine ⟨rfl, rfl, rfl, ?_, fun he => absurd he h0, fun _ hf => ?_⟩
    · simp [finalEvents, Event.isCompletion]
    · simp [finalEvents, hf 0]

/-- C10 witness: the amended theorem applied at batch size `-1` on a
one-task list. -/
theorem c10_nonpositive_batch_witness :
    (-1 : Int) ≤ 0 ∧
    (processBatchesAsync clientOK neverFlag neverFlag oneCell (-1)).results
      = [] ∧
    (processBatchesAsync clientOK neverFlag neverFlag oneCell
      (-1)).succeeded = 0 ∧
    (processBatchesAsync clientOK neverFlag neverFlag oneCell (-1)).failed
      = 0 ∧
    (processBatchesAsync clientOK neverFlag neverFlag oneCell
      (-1)).events.countP Event.isCompletion = 1 := by
  have h := c10_nonpositive_batch clientOK neverFlag neverFlag oneCell (-1)
    (by norm_num)
  exact ⟨by norm_num, h.1, h.2.1, h.2.2.1, h.2.2.2.1⟩

/-! ## Claim theorems: transformation client -/

/-- C5: on both backends, `process_single_cell` is a total function (no
exception reaches the caller) and its `(success, result, error)` triple has
exactly one of the two shapes: `(true, some value, none)` on success or
`(false, none, some message)` on any fault. -/
theorem c5_result_shape
    (maxPerMinute : Nat) (clientReady : Bool) (st : RateSt) (tCheck tInc : ℚ)
    (backend : String → String → BackendOutcome)
    (stream : String → String → StreamOutcome)
    (cellContent systemPrompt userPrompt : String)
    (ctx : Option (List (String × String))) :
    ((∃ v, (processOpenai maxPerMinute clientReady st tCheck tInc backend
        cellContent systemPrompt userPrompt ctx).1 = (true, some v, none)) ∨
     (∃ m, (processOpenai maxPerMinute clientReady st tCheck tInc backend
        cellContent systemPrompt userPrompt ctx).1 = (false, none, some m))) ∧
    ((∃ v, (processOllamaCell maxPerMinute st tCheck tInc stream cellContent
        systemPrompt userPrompt ctx).1 = (true, some v, none)) ∨
     (∃ m, (processOllamaCell maxPerMinute st tCheck tInc stream cellContent
        systemPrompt userPrompt ctx).1 = (false, none, some m))) := by
  constructor
  · unfold processOpenai
    dsimp only
    rcases hb : backend systemPrompt
        (composePrompt userPrompt cellContent ctx) with t | m | m | m <;>
      split_ifs <;> dsimp only <;>
      first
        | exact Or.inl ⟨t.trim, rfl⟩
        | exact Or.inr ⟨_, rfl⟩
  · unfold processOllamaCell
    dsimp only
    rcases hb : stream systemPrompt
        (composePrompt userPrompt cellContent ctx) with pieces | m <;>
      split_ifs <;> dsimp only <;>
      first
        | exact Or.inl ⟨(String.join pieces).trim, rfl⟩
        | exact Or.inr ⟨_, rfl⟩

/-- One `"- {key}: {value}\n"` bullet line of the context section. -/
def bullet (kv : String × String) : String :=
  "- " ++ kv.1 ++ ": " ++ kv.2 ++ "\n"

/-- The concatenation of the bullet lines of a context dictionary. -/
def bullets : List (String × String) → String
  | [] => ""
  | kv :: rest => bullet kv ++ bullets rest

/-- `needle` occurs as a contiguous substring of `hay`. -/
def occursIn (needle hay : String) : Prop :=
  ∃ p s, hay.data = p ++ needle.data ++ s

theorem occursIn_refl (a : String) : occursIn a a := ⟨[], [], by simp⟩

theorem occursIn_append_left {n a : String} (b : String) (h : occursIn n a) :
    occursIn n (a ++ b) := by
  obtain ⟨p, s, hd⟩ := h
  exact ⟨p, s ++ b.data, by simp [hd]⟩

theorem occursIn_append_right {n b : String} (a : String)
    (h : occursIn n b) : occursIn n (a ++ b) := by
  obtain ⟨p, s, hd⟩ := h
  exact ⟨a.data ++ p, s, by simp [hd]⟩

theorem occursIn_trans {a b c : String} (h1 : occursIn a b)
    (h2 : occursIn b c) : occursIn a c := by
  obtain ⟨p1, s1, hd1⟩ := h1
  obtain ⟨p2, s2, hd2⟩ := h2
  exact ⟨p2 ++ p1, s1 ++ s2, by simp [hd2, hd1]⟩

theorem key_occursIn_bullet (kv : String × String) :
    occursIn kv.1 (bullet kv) := by
  unfold bullet
  exact occursIn_append_left _ (occursIn_append_left _
    (occursIn_append_left _ (occursIn_append_right _ (occursIn_refl _))))

theorem value_occursIn_bullet (kv : String × String) :
    occursIn kv.2 (bullet kv) := by
  unfold bullet
  exact occursIn_append_left _ (occursIn_append_right _ (occursIn_refl _))

theorem bullet_occursIn_bullets {kv : String × String} :
    ∀ {ctx : List (String × String)}, kv ∈ ctx →
    occursIn (bullet kv) (bullets ctx) := by
  intro ctx
  induction ctx with
  | nil => intro h; cases h
  | cons hd tl ih =>
    intro hm
    rcases List.mem_cons.mp hm with h | h
    · subst h
      exact occursIn_append_left _ (occursIn_refl _)
    · exact occursIn_append_right _ (ih h)

theorem contextBlock_eq_aux :
    ∀ (l : List (String × String)) (init : String),
    l.foldl (fun acc kv => acc ++ "- " ++ kv.1 ++ ": " ++ kv.2 ++ "\n")
      init = init ++ bullets l := by
  intro l
  induction l with
  | nil => intro init; simp [bullets]
  | cons kv rest ih =>
    intro init
    rw [List.foldl_cons, ih, bullets]
    simp [bullet, String.append_assoc]

/-- The `+=` loop over `context_data.items()` produces the header line
followed by one bullet per entry. -/
theorem contextBlock_eq (ctx : List (String × String)) :
    contextBlock ctx = "\n\nContext information:\n" ++ bullets ctx :=
  contextBlock_eq_aux ctx _

/-- C8: for every cell content, user prompt and non-empty context
dictionary, the composed outbound prompt is the user prompt, the
`"\n\nCell content: "` separator and the content, followed by the
`"\n\nContext information:\n"` header and one `"- key: value"` bullet line
per entry, in dictionary order — hence every context key and value occurs as
a substring of the composed prompt. -/
theorem c8_context_inclusion (userPrompt cellContent : String)
    (ctx : List (String × String)) (hne : ctx ≠ []) :
    composePrompt userPrompt cellContent (some ctx) =
      userPrompt ++ "\n\nCell content: " ++ cellContent ++
        "\n\nContext information:\n" ++ bullets ctx ∧
    ∀ kv ∈ ctx,
      occursIn kv.1 (composePrompt userPrompt cellContent (some ctx)) ∧
      occursIn kv.2 (composePrompt userPrompt cellContent (some ctx)) := by
  have hmain : composePrompt userPrompt cellContent (some ctx) =
      userPrompt ++ "\n\nCell content: " ++ cellContent ++
        "\n\nContext information:\n" ++ bullets ctx := by
    unfold composePrompt
    dsimp only
    rw [if_neg (by simpa [List.isEmpty_iff] using hne), contextBlock_eq]
    simp [String.append_assoc]
  refine ⟨hmain, fun kv hm => ?_⟩
  rw [hmain]
  constructor
  · exact occursIn_append_right _
      (occursIn_trans (key_occursIn_bullet kv) (bullet_occursIn_bullets hm))
  · exact occursIn_append_right _
      (occursIn_trans (value_occursIn_bullet kv) (bullet_occursIn_bullets hm))

/-- C8 witness: the composition theorem applied to a concrete prompt with
the two-entry context `{"Age": "30", "City": "Paris"}`. -/
theorem c8_context_inclusion_witness :
    ([("Age", "30"), ("City", "Paris")] : List (String × String)) ≠ [] ∧
    ∀ kv ∈ ([("Age", "30"), ("City", "Paris")] : List (String × String)),
      occursIn kv.1 (composePrompt "Fix" "cell" (some
        [("Age", "30"), ("City", "Paris")])) ∧
      occursIn kv.2 (composePrompt "Fix" "cell" (some
        [("Age", "30"), ("City", "Paris")])) :=
  ⟨by simp, (c8_context_inclusion "Fix" "cell"
    [("Age", "30"), ("City", "Paris")] (by simp)).2⟩

/-- One `_process_openai` call from a state with `k` requests in an open
window, at instants still inside the window, against a succeeding backend:
the call succeeds, the backend is invoked, and the counter advances to
`k + 1` with the window start unchanged. -/
theorem processOpenai_ok_step (maxPerMinute k : Nat) (t0 t1 t2 : ℚ)
    (f : String → String → String) (cellContent systemPrompt userPrompt :
      String) (ctx : Option (List (String × String)))
    (h1 : t1 - t0 ≤ 60) (h2 : t2 - t0 ≤ 60) (hk : k < maxPerMinute) :
    processOpenai maxPerMinute true ⟨k, t0⟩ t1 t2
        (fun s p => .ok (f s p)) cellContent systemPrompt userPrompt ctx =
      ((true, some ((f systemPrompt
          (composePrompt userPrompt cellContent ctx)).trim), none),
       ⟨k + 1, t0⟩, true) := by
  unfold processOpenai checkRateLimit incrementRequestCount
  dsimp only
  rw [if_neg (by simp)]
  rw [if_neg (not_lt.mpr h1)]
  dsimp only
  rw [if_neg (by simp [hk])]
  try dsimp only
  rw [if_neg (not_lt.mpr h2)]

/-- One `_process_openai` call from a saturated window (`request_count` at
the ceiling), still inside the window: it fails with the rate-limit
message, performs no backend call and leaves the state unchanged. -/
theorem processOpenai_limited (maxPerMinute : Nat) (t0 t1 t2 : ℚ)
    (backend : String → String → BackendOutcome)
    (cellContent systemPrompt userPrompt : String)
    (ctx : Option (List (String × String))) (h1 : t1 - t0 ≤ 60) :
    processOpenai maxPerMinute true ⟨maxPerMinute, t0⟩ t1 t2 backend
        cellContent systemPrompt userPrompt ctx =
      ((false, none, some "Rate limit exceeded. Please try again later."),
       ⟨maxPerMinute, t0⟩, false) := by
  unfold processOpenai checkRateLimit
  dsimp only
  rw [if_neg (by simp)]
  rw [if_neg (not_lt.mpr h1)]
  dsimp only
  rw [if_pos (by simp)]

/-- A sequence of in-window calls against a succeeding backend from a state
with `k` requests, `k + len ≤ max`: every call succeeds and the counter ends
at `k + len` with the window start unchanged. -/
theorem runCalls_ok (maxPerMinute : Nat) (f : String → String → String)
    (cellContent systemPrompt userPrompt : String)
    (ctx : Option (List (String × String))) (t0 : ℚ) :
    ∀ (ts : List (ℚ × ℚ)) (k : Nat),
    (∀ p ∈ ts, p.1 - t0 ≤ 60 ∧ p.2 - t0 ≤ 60) →
    k + ts.length ≤ maxPerMinute →
    (∀ x ∈ (runCalls maxPerMinute (fun s p => .ok (f s p)) cellContent
        systemPrompt userPrompt ctx ⟨k, t0⟩ ts).1, x.1 = true) ∧
    (runCalls maxPerMinute (fun s p => .ok (f s p)) cellContent systemPrompt
        userPrompt ctx ⟨k, t0⟩ ts).2 = ⟨k + ts.length, t0⟩ := by
  intro ts
  induction ts with
  | nil =>
    intro k hin hk
    exact ⟨by simp [runCalls], by simp [runCalls]⟩
  | cons t rest ih =>
    intro k hin hk
    have ht := hin t (List.mem_cons_self t rest)
    have hstep := processOpenai_ok_step maxPerMinute k t0 t.1 t.2 f
      cellContent systemPrompt userPrompt ctx ht.1 ht.2
      (by simp at hk; omega)
    obtain ⟨ih1, ih2⟩ := ih (k + 1)
      (fun p hp => hin p (List.mem_cons_of_mem t hp))
      (by simp at hk ⊢; omega)
    rw [runCalls]
    dsimp only
    rw [hstep]
    dsimp only
    constructor
    · intro x hx
      rcases List.mem_cons.mp hx with h | h
      · subst h; rfl
      · exact ih1 x h
    · rw [ih2, List.length_cons]
      have h3 : k + 1 + rest.length = k + (rest.length + 1) := by omega
      rw [h3]

/-- C4: with `max_per_minute = N` and a backend that always succeeds,
starting from a fresh window at `t0`: any `N` calls whose clock reads stay
within 60 seconds of `t0` all succeed and leave the counter at `N`; a
further call still within the window fails with the rate-limit message,
performs no backend call and does not change the state; `_check_rate_limit`
performed more than 60 seconds after the window start resets the counter to
`0`, advances the window and permits the call, so such a call succeeds and
does reach the backend. -/
theorem c4_rate_limiter (maxPerMinute : Nat) (t0 : ℚ) (ts : List (ℚ × ℚ))
    (f : String → String → String)
    (cellContent systemPrompt userPrompt : String)
    (ctx : Option (List (String × String)))
    (hlen : ts.length = maxPerMinute)
    (hin : ∀ p ∈ ts, p.1 - t0 ≤ 60 ∧ p.2 - t0 ≤ 60) :
    (∀ x ∈ (runCalls maxPerMinute (fun s p => .ok (f s p)) cellContent
        systemPrompt userPrompt ctx ⟨0, t0⟩ ts).1, x.1 = true) ∧
    (runCalls maxPerMinute (fun s p => .ok (f s p)) cellContent systemPrompt
        userPrompt ctx ⟨0, t0⟩ ts).2 = ⟨maxPerMinute, t0⟩ ∧
    (∀ t1 t2 : ℚ, t1 - t0 ≤ 60 →
      processOpenai maxPerMinute true ⟨maxPerMinute, t0⟩ t1 t2
          (fun s p => .ok (f s p)) cellContent systemPrompt userPrompt ctx =
        ((false, none, some "Rate limit exceeded. Please try again later."),
         ⟨maxPerMinute, t0⟩, false)) ∧
    (∀ (cnt : Nat) (w t : ℚ), 60 < t - w →
      checkRateLimit maxPerMinute ⟨cnt, w⟩ t = (true, ⟨0, t⟩)) ∧
    (∀ (st : RateSt) (t1 t2 : ℚ), 60 < t1 - st.windowStart →
      (processOpenai maxPerMinute true st t1 t2 (fun s p => .ok (f s p))
        cellContent systemPrompt userPrompt ctx).1.1 = true ∧
      (processOpenai maxPerMinute true st t1 t2 (fun s p => .ok (f s p))
        cellContent systemPrompt userPrompt ctx).2.2 = true) := by
  obtain ⟨hall, hend⟩ := runCalls_ok maxPerMinute f cellContent systemPrompt
    userPrompt ctx t0 ts 0 hin (by omega)
  refine ⟨hall, by rw [hend]; simp [hlen], ?_, ?_, ?_⟩
  · intro t1 t2 h1
    exact processOpenai_limited maxPerMinute t0 t1 t2 _ cellContent
      systemPrompt userPrompt ctx h1
  · intro cnt w t h
    unfold checkRateLimit
    rw [if_pos (by simpa using h)]
  · intro st t1 t2 h
    unfold processOpenai checkRateLimit incrementRequestCount
    dsimp only
    rw [if_neg (by simp)]
    rw [if_pos h]
    dsimp only
    rw [if_neg (by simp)]
    exact ⟨rfl, rfl⟩

/-- C4 witness: the rate-limiter theorem at `max_per_minute = 2`, fresh
window at `t0 = 0`, in-window calls at instants 1..4. -/
theorem c4_rate_limiter_witness :
    ([((1 : ℚ), (2 : ℚ)), (3, 4)].length = 2) ∧
    (∀ x ∈ (runCalls 2 (fun s p => .ok ((fun _ _ => "R") s p)) "c" "s" "u"
        none ⟨0, 0⟩ [((1 : ℚ), (2 : ℚ)), (3, 4)]).1, x.1 = true) ∧
    (runCalls 2 (fun s p => .ok ((fun _ _ => "R") s p)) "c" "s" "u" none
        ⟨0, 0⟩ [((1 : ℚ), (2 : ℚ)), (3, 4)]).2 = ⟨2, 0⟩ := by
  have h := c4_rate_limiter 2 0 [((1 : ℚ), (2 : ℚ)), (3, 4)]
    (fun _ _ => "R") "c" "s" "u" none rfl (by
      intro p hp
      rcases List.mem_cons.mp hp with h | h
      · subst h; constructor <;> norm_num
      · rcases List.mem_cons.mp h with h | h
        · subst h; constructor <;> norm_num
        · cases h)
  exact ⟨rfl, h.1, h.2.1⟩

/-! ## Helper lemmas: tabular store -/

/-- The validity test of one update against a frame's shape: present
`row`/`col`/`result`, row in bounds, column present. -/
def updValid (df : DataFrame) (u : CellUpdate) : Bool :=
  match u.row, u.col, u.result with
  | some r, some c, some _ =>
    decide (0 ≤ r) && decide (r < (df.rows.length : Int)) &&
      df.cols.contains c
  | _, _, _ => false

theorem updateCell_success (dm : Dm) (df : DataFrame) (r : Int) (c : String)
    (v : Value) (h : dm.df = some df) :
    (updateCell dm r c v).2 =
      (decide (0 ≤ r) && decide (r < (df.rows.length : Int)) &&
        df.cols.contains c) := by
  unfold updateCell
  rw [h]
  dsimp only
  split_ifs with hcond
  · symm
    rcases hcond with h0 | h1 | h2
    · simp [show ¬ (0 ≤ r) by omega]
    · simp [show ¬ (r < (df.rows.length : Int)) by omega]
    · have h2m : c ∉ df.cols := by simpa using h2
      simp [h2m]
  · symm
    push_neg at hcond
    obtain ⟨h0, h1, h2⟩ := hcond
    have h2m : c ∈ df.cols := by simpa using h2
    simp [h0, h1, h2m]

theorem updateCell_df (dm : Dm) (df : DataFrame) (r : Int) (c : String)
    (v : Value) (h : dm.df = some df) :
    ∃ df2, (updateCell dm r c v).1.df = some df2 ∧
      df2.rows.length = df.rows.length ∧ df2.cols = df.cols := by
  unfold updateCell
  rw [h]
  dsimp only
  split_ifs
  · exact ⟨df, h, rfl, rfl⟩
  · exact ⟨df.setCell r.toNat c v, rfl, by simp [DataFrame.setCell],
      by simp [DataFrame.setCell]⟩

theorem updateLoop_counts (df : DataFrame) :
    ∀ (us : List CellUpdate) (dm : Dm) (df' : DataFrame),
    dm.df = some df' → df'.rows.length = df.rows.length →
    df'.cols = df.cols →
    (updateLoop dm us).2.1 = us.countP (updValid df) ∧
    (updateLoop dm us).2.2 = us.countP (fun u => !updValid df u) := by
  intro us
  induction us with
  | nil => intro dm df' hdm hlen hcols; simp [updateLoop]
  | cons u rest ih =>
    intro dm df' hdm hlen hcols
    rcases u with ⟨ur, uc, urr⟩
    rcases ur with _ | r <;> rcases uc with _ | c <;> rcases urr with _ | w
    case some.some.some =>
      rw [updateLoop]
      dsimp only
      obtain ⟨df2, hdf2, hlen2, hcols2⟩ := updateCell_df dm df' r c w hdm
      obtain ⟨ih1, ih2⟩ := ih (updateCell dm r c w).1 df2 hdf2
        (by omega) (by rw [hcols2, hcols])
      have hsucc : (updateCell dm r c w).2 = updValid df ⟨some r, some c,
          some w⟩ := by
        rw [updateCell_success dm df' r c w hdm]
        unfold updValid
        rw [hlen, hcols]
      rw [ih1, ih2, hsucc]
      constructor
      · rw [List.countP_cons]
        rcases hv : updValid df ⟨some r, some c, some w⟩ <;> simp [hv]
        all_goals omega
      · rw [List.countP_cons]
        rcases hv : updValid df ⟨some r, some c, some w⟩ <;> simp [hv]
        all_goals omega
    all_goals
      rw [updateLoop]
      dsimp only
      obtain ⟨ih1, ih2⟩ := ih dm df' hdm hlen hcols
      rw [ih1, ih2]
      refine ⟨by simp [List.countP_cons, updValid], ?_⟩
      rw [List.countP_cons]
      simp [updValid]
      omega

theorem getD_set_self :
    ∀ (l : List α) (i : Nat) (a d : α), i < l.length →
    (l.set i a).getD i d = a := by
  intro l
  induction l with
  | nil => intro i a d h; simp at h
  | cons x xs ih =>
    intro i a d h
    cases i with
    | zero => rfl
    | succ n =>
      simp only [List.set, List.getD, List.getElem?_cons_succ]
      have := ih n a d (by simp at h; omega)
      simpa [List.getD] using this

theorem lookup_setAssoc (c : String) (v : Value) :
    ∀ (l : List (String × Value)), (setAssoc l c v).lookup c = some v := by
  intro l
  induction l with
  | nil => simp [setAssoc, List.lookup]
  | cons kv rest ih =>
    rcases kv with ⟨k, w⟩
    unfold setAssoc
    by_cases hk : k = c
    · rw [if_pos hk]
      simp [List.lookup]
    · rw [if_neg hk]
      have hne : (c == k) = false := by
        simp [Ne.symm hk]
      simp [List.lookup, hne, ih]

theorem cellD_setCell (df : DataFrame) (r : Nat) (c : String) (v : Value)
    (hr : r < df.rows.length) :
    (df.setCell r c v).cellD r c = v := by
  unfold DataFrame.setCell DataFrame.cellD
  dsimp only
  rw [getD_set_self df.rows r _ [] hr, lookup_setAssoc]

/-! ## Claim theorems: tabular store -/

/-- C9: with no table loaded, `update_range` returns `(0, len(updates))`
and leaves the whole manager state unchanged; and inside the loop, an
update whose `row`, `col` or `result` is absent (or whose value is Python
`None`) adds one to the failed count without touching the state. -/
theorem c9_update_range_guards
    (dm dm2 : Dm) (updates rest : List CellUpdate) (u : CellUpdate)
    (autoSave saveOk : Bool) (hdf : dm.df = none)
    (hu : u.row = none ∨ u.col = none ∨ u.result = none) :
    updateRange dm updates autoSave saveOk = (dm, 0, updates.length) ∧
    (updateLoop dm2 (u :: rest)).1 = (updateLoop dm2 rest).1 ∧
    (updateLoop dm2 (u :: rest)).2.1 = (updateLoop dm2 rest).2.1 ∧
    (updateLoop dm2 (u :: rest)).2.2 = 1 + (updateLoop dm2 rest).2.2 := by
  refine ⟨?_, ?_⟩
  · unfold updateRange
    rw [hdf]
  · rcases u with ⟨ur, uc, urr⟩
    rcases ur with _ | r <;> rcases uc with _ | c <;> rcases urr with _ | w
    case some.some.some => simp at hu
    all_goals exact ⟨rfl, rfl, rfl⟩

/-- C9 witness: the guards applied to a concrete manager with no table and
a concrete update lacking its `result`. -/
theorem c9_update_range_guards_witness :
    ((⟨none, false, false⟩ : Dm).df = none) ∧
    ((⟨some 0, some "Name", none⟩ : CellUpdate).result = none) ∧
    updateRange ⟨none, false, false⟩
        [⟨some 0, some "Name", some (.str "x")⟩] false false =
      (⟨none, false, false⟩, 0, 1) ∧
    (updateLoop ⟨none, false, false⟩
        [⟨some 0, some "Name", none⟩]).2.2 =
      1 + (updateLoop ⟨none, false, false⟩ ([] : List CellUpdate)).2.2 := by
  have h := c9_update_range_guards ⟨none, false, false⟩ ⟨none, false, false⟩
    [⟨some 0, some "Name", some (.str "x")⟩] [] ⟨some 0, some "Name", none⟩
    false false rfl (Or.inr (Or.inr rfl))
  exact ⟨rfl, rfl, h.1, h.2.2.2⟩

/-- The Scenario D table: two rows with columns `Name` and `Age`. -/
def dfNames : DataFrame :=
  ⟨["Name", "Age"],
   [[("Name", .str "John"), ("Age", .int 30)],
    [("Name", .str "Jane"), ("Age", .int 25)]]⟩

/-- The manager state holding the Scenario D table with a backing file. -/
def dmNames : Dm := ⟨some dfNames, false, true⟩

/-- A result list with one valid entry, one out-of-bounds row and one
nonexistent column. -/
def updatesC7 : List CellUpdate :=
  [⟨some 0, some "Name", some (.str "NEW")⟩,
   ⟨some 5, some "Name", some (.str "X")⟩,
   ⟨some 0, some "Bogus", some (.str "Y")⟩]

/-- The Scenario D table after the one valid write of `updatesC7`. -/
def dfNames' : DataFrame :=
  ⟨["Name", "Age"],
   [[("Name", .str "NEW"), ("Age", .int 30)],
    [("Name", .str "Jane"), ("Age", .int 25)]]⟩

/-- C7: `update_range` counts exactly the updates passing the
row-bounds/column-existence/value-present test as applied and all others as
failed, without aborting (both counts are total over the list); a valid
update really writes its cell; and on the concrete one-valid/one-OOB-row/
one-bad-column list the result is `(1, 2)` with the valid cell's new value
reflected in the store. -/
theorem c7_write_range :
    (∀ (dm : Dm) (df : DataFrame) (updates : List CellUpdate)
      (autoSave saveOk : Bool), dm.df = some df →
      (updateRange dm updates autoSave saveOk).2.1 =
        updates.countP (updValid df) ∧
      (updateRange dm updates autoSave saveOk).2.2 =
        updates.countP (fun u => !updValid df u)) ∧
    (∀ (dm : Dm) (df : DataFrame) (r : Int) (c : String) (v : Value),
      dm.df = some df → 0 ≤ r → r < (df.rows.length : Int) →
      df.cols.contains c = true →
      (updateCell dm r c v).2 = true ∧
      (updateCell dm r c v).1.df = some (df.setCell r.toNat c v) ∧
      (df.setCell r.toNat c v).cellD r.toNat c = v) ∧
    ((updateRange dmNames updatesC7 false true).2 = (1, 2) ∧
     (updateRange dmNames updatesC7 false true).1.df = some dfNames' ∧
     dfNames'.cellD 0 "Name" = .str "NEW") := by
  refine ⟨?_, ?_, by decide⟩
  · intro dm df updates autoSave saveOk hdm
    obtain ⟨h1, h2⟩ := updateLoop_counts df updates dm df hdm rfl rfl
    unfold updateRange
    rw [hdm]
    dsimp only
    exact ⟨h1, h2⟩
  · intro dm df r c v hdm h0 h1 h2
    have hcell : (updateCell dm r c v).1.df = some (df.setCell r.toNat c v)
        ∧ (updateCell dm r c v).2 = true := by
      unfold updateCell
      rw [hdm]
      dsimp only
      rw [if_neg (by push_neg; refine ⟨h0, h1, ?_⟩; simpa using h2)]
      exact ⟨rfl, rfl⟩
    exact ⟨hcell.2, hcell.1, cellD_setCell df r.toNat c v (by omega)⟩

/-- C7 witness: the counting part applied to the concrete store and update
list (the third conjunct of the theorem is already closed). -/
theorem c7_write_range_witness :
    (dmNames.df = some dfNames) ∧
    (updateRange dmNames updatesC7 false true).2.1 =
      updatesC7.countP (updValid dfNames) ∧
    (updateRange dmNames updatesC7 false true).2.2 =
      updatesC7.countP (fun u => !updValid dfNames u) :=
  ⟨rfl, (c7_write_range.1 dmNames dfNames updatesC7 false true rfl).1,
    (c7_write_range.1 dmNames dfNames updatesC7 false true rfl).2⟩

/-- C6: `get_range` (i) clamps the row bounds — the call equals the call on
`max(start, 0)` and `min(end, len(df))`; (ii) silently drops requested
columns absent from the table — the call equals the call on the filtered
column list; (iii) returns `[]` (not an error) when no requested column is
valid; and (iv) every returned task, when the valid context column list is
non-empty, carries exactly the context dictionary holding each valid
context column's value for that row plus the synthetic `headers` entry over
the processed and context columns. -/
theorem c6_read_range (df : DataFrame) (s e : Int) (cols : List String)
    (ctx : Option (List String)) (ctxCols : List String) :
    (getRange (some df) s e cols ctx =
      getRange (some df) (max s 0) (min e (df.rows.length : Int)) cols ctx) ∧
    (getRange (some df) s e cols ctx =
      getRange (some df) s e (cols.filter (fun c => df.cols.contains c))
        ctx) ∧
    (cols.filter (fun c => df.cols.contains c) = [] →
      getRange (some df) s e cols ctx = []) ∧
    (∀ task ∈ getRange (some df) s e cols (some ctxCols),
      ctxCols.filter (fun c => df.cols.contains c &&
        !(cols.filter (fun c2 => df.cols.contains c2)).contains c) ≠ [] →
      task.contextData = some
        { entries := (ctxCols.filter (fun c => df.cols.contains c &&
            !(cols.filter (fun c2 => df.cols.contains c2)).contains c)).map
            (fun cc => (cc, df.cellD task.row cc)),
          headers := (cols.filter (fun c => df.cols.contains c) ++
            ctxCols.filter (fun c => df.cols.contains c &&
              !(cols.filter (fun c2 => df.cols.contains c2)).contains c)).map
            (fun c2 => (c2, c2)) }) := by
  refine ⟨?_, ?_, ?_, ?_⟩
  · unfold getRange
    dsimp only
    have h1 : (if max s 0 < 0 then (0 : Int) else max s 0) =
        (if s < 0 then 0 else s) := by
      rcases le_or_lt 0 s with h | h
      · rw [max_eq_left h]
      · rw [max_eq_right (by omega), if_neg (lt_irrefl 0), if_pos h]
    have h2 : (if (df.rows.length : Int) < min e (df.rows.length : Int) then
        (df.rows.length : Int) else min e (df.rows.length : Int)) =
        (if (df.rows.length : Int) < e then (df.rows.length : Int)
         else e) := by
      rcases le_or_lt e (df.rows.length : Int) with h | h
      · rw [min_eq_left h]
      · rw [min_eq_right (by omega), if_neg (lt_irrefl _), if_pos h]
    rw [h1, h2]
  · unfold getRange
    dsimp only
    have hff : (cols.filter (fun c => df.cols.contains c)).filter
        (fun c => df.cols.contains c) =
        cols.filter (fun c => df.cols.contains c) := by
      rw [List.filter_filter]
      apply List.filter_congr
      intro c _
      exact Bool.and_self _
    rw [hff]
  · intro hempty
    unfold getRange
    dsimp only
    rw [hempty]
    simp
  · intro task hmem hvne
    unfold getRange at hmem
    dsimp only at hmem
    by_cases hval : (cols.filter (fun c => df.cols.contains c)).isEmpty =
        true
    · rw [if_pos hval] at hmem
      cases hmem
    · rw [if_neg hval] at hmem
      simp only [List.mem_flatMap, List.mem_map] at hmem
      obtain ⟨r, _, c, _, htask⟩ := hmem
      subst htask
      dsimp only
      rw [if_neg (by simpa [List.isEmpty_iff] using hvne)]

/-- C6 witness: Scenario D — `read_range(0, 2, ["Name"],
context_columns=["Age"])` on the two-row Name/Age table — plus the
empty-result conjunct at an all-invalid column list and the clamping
conjunct at out-of-range bounds. -/
theorem c6_read_range_witness :
    (getRange (some dfNames) (-3) 99 ["Name"] (some ["Age"]) =
      getRange (some dfNames) (max (-3) 0) (min 99 (dfNames.rows.length :
        Int)) ["Name"] (some ["Age"])) ∧
    (["Bogus"].filter (fun c => dfNames.cols.contains c) = [] →
      getRange (some dfNames) 0 2 ["Bogus"] (some ["Age"]) = []) ∧
    (["Bogus"].filter (fun c => dfNames.cols.contains c) = []) ∧
    (∀ task ∈ getRange (some dfNames) 0 2 ["Name"] (some ["Age"]),
      ["Age"].filter (fun c => dfNames.cols.contains c &&
        !(["Name"].filter (fun c2 => dfNames.cols.contains c2)).contains c)
        ≠ [] →
      task.contextData = some
        { entries := (["Age"].filter (fun c => dfNames.cols.contains c &&
            !(["Name"].filter (fun c2 =>
              dfNames.cols.contains c2)).contains c)).map
            (fun cc => (cc, dfNames.cellD task.row cc)),
          headers := (["Name"].filter (fun c => dfNames.cols.contains c) ++
            ["Age"].filter (fun c => dfNames.cols.contains c &&
              !(["Name"].filter (fun c2 =>
                dfNames.cols.contains c2)).contains c)).map
            (fun c2 => (c2, c2)) }) ∧
    (getRange (some dfNames) 0 2 ["Name"] (some ["Age"])).length = 2 :=
  ⟨(c6_read_range dfNames (-3) 99 ["Name"] (some ["Age"]) ["Age"]).1,
   (c6_read_range dfNames 0 2 ["Bogus"] (some ["Age"]) ["Age"]).2.2.1,
   by decide,
   (c6_read_range dfNames 0 2 ["Name"] (some ["Age"]) ["Age"]).2.2.2,
   by decide⟩

end ExcelAI
